import Mathlib

/-!
# Verification of the turtle-market LMSR engine

Shallow embedding of the pricing engine (`lmsr.py`), the ledger operations
(`data.py`) and the trade-confirmation flows (`main.py`) of the
ThePotatoTurtle/turtle-market repository, together with proofs of the
spec's testable properties.

Python floats are modelled as real numbers; the transcendental functions
`math.exp` / `math.log` become `Real.exp` / `Real.log`.  The unbounded
`while True` bracket-expansion loop of `calc_shares` is embedded with an
explicit fuel parameter; a termination theorem shows that the loop's exit
condition is always reached after finitely many doublings when `b > 0`.

The SQLite tables of `data.py` are modelled as a functional `State`:
`user_balances` becomes a total function `String → ℝ` (`get_balance`
initialises an unseen account to the default, so reading through a total
function is equivalent), `market_info`/`market_data` become an association
list, `user_bets` a list of rows keyed by (user, market, outcome), and the
`trades`/`resolutions` logs become append-only lists.  Timestamp columns
(`last_trade`, `resolution_date`, log timestamps) and the per-user
`volume_traded` counter are not modelled: wall-clock time is outside the
embedding and no claim mentions them.
-/

noncomputable section

namespace TurtleMarket

/-! ## config.py -/

/-- `config.DEFAULT_USER_BALANCE = 0.0` -/
def DEFAULT_USER_BALANCE : ℝ := 0

/-- `config.POOL_ID = 'AMM'` -/
def POOL_ID : String := "AMM"

/-- `config.DEFAULT_B = 100.0` -/
def DEFAULT_B : ℝ := 100

/-! ## lmsr.py -/

/-- `lmsr.lmsr_cost(q_yes, q_no, b)`:
`b * (m + log(exp(x - m) + exp(y - m)))` with `x = q_yes/b`, `y = q_no/b`,
`m = max x y` (the log-sum-exp form used by the source). -/
def lmsr_cost (q_yes q_no b : ℝ) : ℝ :=
  let x := q_yes / b
  let y := q_no / b
  let m := max x y
  b * (m + Real.log (Real.exp (x - m) + Real.exp (y - m)))

/-- `lmsr.lmsr_price(q_yes, q_no, b)`:
`exp(x - m) / (exp(x - m) + exp(y - m))` with the same shift by the max. -/
def lmsr_price (q_yes q_no b : ℝ) : ℝ :=
  let x := q_yes / b
  let y := q_no / b
  let m := max x y
  let ex := Real.exp (x - m)
  let ey := Real.exp (y - m)
  ex / (ex + ey)

/-- Python's `str.upper()` (all inputs here are ASCII). -/
def upper (s : String) : String := ⟨s.data.map Char.toUpper⟩

/-- The side-dependent cost probe used inside both loops of
`lmsr.calc_shares`:
`lmsr_cost(q_yes + dq, q_no, b)` when `side.upper() == 'YES'`, otherwise
`lmsr_cost(q_yes, q_no + dq, b)`. -/
def side_cost (q_yes q_no b : ℝ) (side : String) (dq : ℝ) : ℝ :=
  if upper side = "YES" then lmsr_cost (q_yes + dq) q_no b
  else lmsr_cost q_yes (q_no + dq) b

/-- The `while True:` bracket-expansion loop of `lmsr.calc_shares`
(lines 50-57): starting from the initial `high`, return `high` as soon as
`cost(high) >= target`, otherwise double `high`.  The loop is unbounded in
the source; here `fuel` bounds the number of doublings (the termination
theorem shows sufficient fuel always exists for `b > 0`). -/
def expand_high (q_yes q_no b target : ℝ) (side : String) :
    ℕ → ℝ → ℝ
  | 0, high => high
  | fuel + 1, high =>
    if target ≤ side_cost q_yes q_no b side high then high
    else expand_high q_yes q_no b target side fuel (2 * high)

/-- The `for _ in range(max_iter)` bisection loop of `lmsr.calc_shares`
(lines 60-75): take `mid = (low + high)/2`; return `mid` when
`|c_mid - target| < tol`; shrink towards `mid` otherwise; after the last
iteration return `(low + high)/2`. -/
def bisect (q_yes q_no b target tol : ℝ) (side : String) :
    ℕ → ℝ → ℝ → ℝ
  | 0, low, high => (low + high) / 2
  | n + 1, low, high =>
    let mid := (low + high) / 2
    let c_mid := side_cost q_yes q_no b side mid
    if |c_mid - target| < tol then mid
    else if target < c_mid then bisect q_yes q_no b target tol side n low mid
    else bisect q_yes q_no b target tol side n mid high

/-- `lmsr.calc_shares(delta_cash, q_yes, q_no, b, side, tol=1e-6,
max_iter=100)`: `target = lmsr_cost(q_yes,q_no,b) + delta_cash`, initial
bracket `low = 0.0`, `high = max(delta_cash / b * b, 1.0)`, then bracket
expansion followed by bisection.  `fuel` bounds the expansion loop only. -/
def calc_shares (fuel : ℕ) (delta_cash q_yes q_no b : ℝ) (side : String)
    (tol : ℝ) (max_iter : ℕ) : ℝ :=
  let current_cost := lmsr_cost q_yes q_no b
  let target := current_cost + delta_cash
  let high := expand_high q_yes q_no b target side fuel
    (max (delta_cash / b * b) 1)
  bisect q_yes q_no b target tol side max_iter 0 high

/-! ## Data model (schema tables of data.py) -/

/-- One market: the joined `market_info` / `market_data` row
(timestamp columns omitted, see the header). -/
structure Market where
  question : String
  b : ℝ
  yes_shares : ℝ
  no_shares : ℝ
  resolved : Bool
  market_resolution : Option String
  implied_odds : ℝ
  volume_traded : ℝ

/-- One `user_bets` row. -/
structure Bet where
  user_id : String
  market_id : String
  outcome : String
  shares : ℝ
  cost_basis : ℝ

/-- One `trades` log row. -/
structure TradeRow where
  user_id : String
  market_id : String
  outcome : String
  shares : ℝ
  amount : ℝ
  price : ℝ
  balance : ℝ

/-- One `resolutions` log row. -/
structure ResolutionRow where
  user_id : String
  market_id : String
  outcome : String
  shares : ℝ
  redeemed : ℝ

/-- The whole database.  `balances` is total: `data.get_balance`
initialises an absent `user_balances` row to the default balance, so every
account semantically always has a balance. -/
structure State where
  markets : List (String × Market)
  balances : String → ℝ
  bets : List Bet
  trades : List TradeRow
  resolutions : List ResolutionRow

/-- Dictionary lookup `markets.get(id)` / `markets[id]` on the loaded
market dict. -/
def lookupMarket (markets : List (String × Market)) (id : String) :
    Option Market :=
  (markets.find? (fun p => p.1 == id)).map Prod.snd

/-- Writing one updated market back (`data.save_markets` after the dict
entry for `id` was mutated in place). -/
def set_market (S : State) (id : String) (m : Market) : State :=
  { S with markets := S.markets.map (fun p => if p.1 = id then (p.1, m) else p) }

/-- `data.update_balance(user_id, delta)`: `balance = get_balance + delta`. -/
def update_balance (S : State) (user_id : String) (delta : ℝ) : State :=
  { S with balances := fun x =>
      if x = user_id then S.balances x + delta else S.balances x }

/-- The (user, market, outcome) key of a `user_bets` row. -/
def betKey (user_id market_id outcome : String) (r : Bet) : Bool :=
  r.user_id == user_id && r.market_id == market_id && r.outcome == outcome

/-- `data.add_bet(user_id, market_id, outcome, delta_shares, delta_cost)`:
read the current row (defaults 0), add the deltas, then delete the row if
the new share count is `<= 0`, else upsert it. -/
def add_bet (S : State) (user_id market_id outcome : String)
    (delta_shares delta_cost : ℝ) : State :=
  let cur := S.bets.find? (betKey user_id market_id outcome)
  let current_shares := (cur.map Bet.shares).getD 0
  let current_cost := (cur.map Bet.cost_basis).getD 0
  let new_shares := current_shares + delta_shares
  let new_cost := current_cost + delta_cost
  let rest := S.bets.filter (fun r => ! betKey user_id market_id outcome r)
  if new_shares ≤ 0 then { S with bets := rest }
  else { S with bets := ⟨user_id, market_id, outcome, new_shares, new_cost⟩ :: rest }

/-- `data.log_trade(...)`: append one `trades` row (the per-user
`volume_traded` counter it also bumps is not modelled). -/
def log_trade (S : State) (user_id market_id outcome : String)
    (shares amount price balance : ℝ) : State :=
  { S with trades := ⟨user_id, market_id, outcome, shares, amount, price, balance⟩ :: S.trades }

/-- `m['shares'][outcome] += delta` on a loaded market dict; `outcome` is
`"YES"` or `"NO"` at every call site in `main.py`. -/
def Market.addShares (m : Market) (outcome : String) (delta : ℝ) : Market :=
  if outcome = "YES" then { m with yes_shares := m.yes_shares + delta }
  else { m with no_shares := m.no_shares + delta }

/-! ## main.py : trade confirmation -/

/-- The fields `BuyConfirmView.__init__` stores from the quote stage. -/
structure BuyConfirmView where
  user_id : String
  market_id : String
  outcome : String
  amount : ℝ
  shares : ℝ
  price : ℝ

/-- The fields `SellConfirmView.__init__` stores from the quote stage. -/
structure SellConfirmView where
  user_id : String
  market_id : String
  outcome : String
  percent : ℤ
  shares : ℝ
  price : ℝ

/-- Which branch a confirmation handler took.  `keyError` models the
uncaught `KeyError` of `markets[self.market_id]` on a market deleted
between quote and confirm (no mutation has happened at that point). -/
inductive ConfirmResult where
  | keyError : ConfirmResult
  | priceMoved : ConfirmResult
  | committed : ConfirmResult
deriving DecidableEq

/-- The mutation block of `BuyConfirmView.confirm` (main.py lines
122-152), given the freshly loaded market `m`: debit the user, credit the
pool, add the quoted shares to the position and to the market, recompute
the implied odds, bump the volume, and append the trade log row. -/
def BuyConfirmView.commit (v : BuyConfirmView) (S : State) (m : Market) :
    State :=
  let S1 := update_balance S v.user_id (-v.amount)
  let S2 := update_balance S1 POOL_ID v.amount
  let S3 := add_bet S2 v.user_id v.market_id v.outcome v.shares v.amount
  let m1 := m.addShares v.outcome v.shares
  let implied_yes := lmsr_price m1.yes_shares m1.no_shares m1.b
  let m2 := { m1 with implied_odds := implied_yes,
                      volume_traded := m1.volume_traded + |v.amount| }
  let S4 := set_market S3 v.market_id m2
  let balance := S4.balances v.user_id
  log_trade S4 v.user_id v.market_id v.outcome v.shares v.amount v.price balance

/-- `BuyConfirmView.confirm` (main.py lines 101-180), with the front-end
"not your order" guard (interaction identity) outside the model: reload
the market, recompute the share count for the same dollar amount, abort
with `priceMoved` when the new average price differs from the quoted one
by more than `1e-6` (absolute), otherwise run the mutation block. -/
def BuyConfirmView.confirm (fuel : ℕ) (v : BuyConfirmView) (S : State) :
    State × ConfirmResult :=
  match lookupMarket S.markets v.market_id with
  | none => (S, .keyError)
  | some m =>
    let new_shares :=
      calc_shares fuel v.amount m.yes_shares m.no_shares m.b v.outcome 1e-6 100
    let new_avg := v.amount / new_shares
    if 1e-6 < |new_avg - v.price| then (S, .priceMoved)
    else (v.commit S m, .committed)

/-- The mutation block of `SellConfirmView.confirm` (main.py lines
233-258): credit the user the proceeds, debit the pool, remove the shares
from the position and from the market, recompute implied odds, bump the
volume, and append the (negated) trade log row. -/
def SellConfirmView.commit (v : SellConfirmView) (S : State) (m : Market)
    (new_amount : ℝ) : State :=
  let S1 := update_balance S v.user_id new_amount
  let S2 := update_balance S1 POOL_ID (-new_amount)
  let S3 := add_bet S2 v.user_id v.market_id v.outcome (-v.shares) (-new_amount)
  let m1 := m.addShares v.outcome (-v.shares)
  let implied_yes := lmsr_price m1.yes_shares m1.no_shares m1.b
  let m2 := { m1 with implied_odds := implied_yes,
                      volume_traded := m1.volume_traded + |new_amount| }
  let S4 := set_market S3 v.market_id m2
  let balance := S4.balances v.user_id
  log_trade S4 v.user_id v.market_id v.outcome (-v.shares) (-new_amount) v.price balance

/-- The recomputed sell proceeds of `SellConfirmView.confirm` (main.py
lines 218-223): `current_cost - new_cost` for removing the stored share
count from the traded side. -/
def sell_new_amount (m : Market) (v : SellConfirmView) : ℝ :=
  lmsr_cost m.yes_shares m.no_shares m.b -
    (if v.outcome = "YES" then lmsr_cost (m.yes_shares - v.shares) m.no_shares m.b
     else lmsr_cost m.yes_shares (m.no_shares - v.shares) m.b)

/-- `SellConfirmView.confirm` (main.py lines 208-281): reload the market,
recompute the proceeds of selling the stored share count as a cost
difference, abort with `priceMoved` when the new average price differs
from the quoted one by more than `1e-6` (absolute), otherwise commit. -/
def SellConfirmView.confirm (v : SellConfirmView) (S : State) :
    State × ConfirmResult :=
  match lookupMarket S.markets v.market_id with
  | none => (S, .keyError)
  | some m =>
    let new_amount := sell_new_amount m v
    let new_avg := new_amount / v.shares
    if 1e-6 < |new_avg - v.price| then (S, .priceMoved)
    else (v.commit S m new_amount, .committed)

/-! ## main.py : quote-stage commands -/

/-- Outcome of the quote stage of `/buy` and `/sell`. -/
inductive QuoteResult where
  | notFound : QuoteResult
  | marketResolved : QuoteResult
  | invalidAmount : QuoteResult
  | noShares : QuoteResult
  | quoted : ℝ → ℝ → QuoteResult

/-- The `/buy` command (main.py lines 510-545) up to showing the
confirmation view: market existence check, resolved check, amount and
balance check, then the LMSR quote.  Quoting performs no mutation. -/
def buy (fuel : ℕ) (S : State) (user_id id side : String) (amount : ℝ) :
    State × QuoteResult :=
  let outcome := if upper side = "Y" then "YES" else "NO"
  match lookupMarket S.markets id with
  | none => (S, .notFound)
  | some m =>
    if m.resolved then (S, .marketResolved)
    else
      let bal := S.balances user_id
      if amount ≤ 0 ∨ bal < amount then (S, .invalidAmount)
      else
        let shares := calc_shares fuel amount m.yes_shares m.no_shares m.b outcome 1e-6 100
        (S, .quoted shares (amount / shares))

/-- The `/sell` command (main.py lines 558-617) up to showing the
confirmation view: market existence check, resolved check, holdings
check, percent range check, then the cost-difference quote.  Quoting
performs no mutation. -/
def sell (S : State) (user_id id side : String) (percent : ℤ) :
    State × QuoteResult :=
  let outcome := if upper side = "Y" then "YES" else "NO"
  match lookupMarket S.markets id with
  | none => (S, .notFound)
  | some m =>
    if m.resolved then (S, .marketResolved)
    else
      let owned := ((S.bets.find? (betKey user_id id outcome)).map Bet.shares).getD 0
      if owned ≤ 0 then (S, .noShares)
      else if percent < 1 ∨ 100 < percent then (S, .invalidAmount)
      else
        let shares_to_sell := owned * ((percent : ℝ) / 100)
        let current_cost := lmsr_cost m.yes_shares m.no_shares m.b
        let new_cost :=
          if outcome = "YES" then lmsr_cost (m.yes_shares - shares_to_sell) m.no_shares m.b
          else lmsr_cost m.yes_shares (m.no_shares - shares_to_sell) m.b
        let amount := current_cost - new_cost
        let price := if shares_to_sell = 0 then 0 else amount / shares_to_sell
        (S, .quoted shares_to_sell price)

/-! ## data.py : resolution -/

/-- The two `ValueError`s `data.resolve_market` can raise. -/
inductive ResolveErr where
  | notFound : ResolveErr
  | alreadyResolved : ResolveErr
deriving DecidableEq

/-- One iteration of the payout loop of `data.resolve_market` (lines
315-338): compute `redeemed` (HALF pays `0.5 * shares` to every position;
otherwise winners get `shares`, losers 0, and the running totals are
updated in the non-HALF branch only), credit the user, and append the
resolutions log row.  The accumulator is (state, total_paid, total_lost). -/
def resolve_row (market_id correct : String) (acc : State × ℝ × ℝ)
    (r : Bet) : State × ℝ × ℝ :=
  let redeemed :=
    if correct = "HALF" then 0.5 * r.shares
    else if r.outcome = correct then r.shares else 0
  let total_paid :=
    if correct = "HALF" then acc.2.1
    else acc.2.1 + (if r.outcome = correct then r.shares else 0)
  let total_lost :=
    if correct = "HALF" then acc.2.2
    else if r.outcome = correct then acc.2.2 else acc.2.2 + r.shares
  let S1 := update_balance acc.1 r.user_id redeemed
  let S2 := { S1 with resolutions :=
    ⟨r.user_id, market_id, r.outcome, r.shares, redeemed⟩ :: S1.resolutions }
  (S2, total_paid, total_lost)

/-- `data.resolve_market(market_id, correct)` (lines 270-342): fetch the
market (raise on missing or already-resolved), mark it resolved, then run
the payout loop over every `user_bets` row of that market, all in one
transaction.  Returns the new state and
`(question, implied_odds, total_paid, total_lost)`. -/
def resolve_market (S : State) (market_id correct : String) :
    Except ResolveErr (State × String × ℝ × ℝ × ℝ) :=
  match lookupMarket S.markets market_id with
  | none => .error .notFound
  | some m =>
    if m.resolved then .error .alreadyResolved
    else
      let S0 := set_market S market_id
        { m with resolved := true, market_resolution := some correct }
      let rows := S.bets.filter (fun r => r.market_id == market_id)
      let res := rows.foldl (resolve_row market_id correct) (S0, 0, 0)
      .ok (res.1, m.question, m.implied_odds, res.2.1, res.2.2)

/-- The `/resolve` command (main.py lines 834-865): map `Y`/`N` to
`YES`/`NO`, call `data.resolve_market`, and on `ValueError` report the
error with no further action, leaving the state untouched. -/
def resolve_command (S : State) (id outcome : String) :
    State × Option ResolveErr :=
  let correct := if upper outcome = "Y" then "YES" else "NO"
  match resolve_market S id correct with
  | .error e => (S, some e)
  | .ok out => (out.1, none)

/-! ## Concrete example states used by witnesses and counterexamples -/

/-- A market that is already resolved (b = 1, no outstanding shares). -/
def exMarket : Market :=
  { question := "q", b := 1, yes_shares := 0, no_shares := 0,
    resolved := true, market_resolution := some "YES",
    implied_odds := 1/2, volume_traded := 0 }

/-- A state holding only the resolved market `"m"`; every balance 100. -/
def exState : State :=
  { markets := [("m", exMarket)], balances := fun _ => 100,
    bets := [], trades := [], resolutions := [] }

/-- A stored buy confirmation against `"m"` whose quoted price equals the
recomputed average price exactly (so its price check passes). -/
def exBuyView : BuyConfirmView :=
  { user_id := "u", market_id := "m", outcome := "YES", amount := 1,
    shares := 1, price := 1 / calc_shares 1 1 0 0 1 "YES" 1e-6 100 }

/-- A stored buy confirmation against `"m"` whose quoted price is off by
a full dollar (so its price check fails). -/
def exDriftView : BuyConfirmView :=
  { user_id := "u", market_id := "m", outcome := "YES", amount := 1,
    shares := 1, price := 1 / calc_shares 1 1 0 0 1 "YES" 1e-6 100 + 1 }

/-- An unresolved market with one outstanding YES share (b = 1). -/
def exMarketU : Market :=
  { question := "q", b := 1, yes_shares := 1, no_shares := 0,
    resolved := false, market_resolution := none,
    implied_odds := 1/2, volume_traded := 0 }

/-- A state holding the unresolved market `"m"` and a 1-share YES
position of user `"u"`; every balance 100. -/
def exSellState : State :=
  { markets := [("m", exMarketU)], balances := fun _ => 100,
    bets := [⟨"u", "m", "YES", 1, 6/10⟩], trades := [], resolutions := [] }

/-- A stored sell confirmation for that position whose quoted price is
`9e-7` below the recomputed average price: inside the absolute `1e-6`
tolerance, but a relative drift above `1e-6`. -/
def exSellView : SellConfirmView :=
  { user_id := "u", market_id := "m", outcome := "YES", percent := 100,
    shares := 1, price := (lmsr_cost 1 0 1 - lmsr_cost 0 0 1) - 9e-7 }

/-- A stored sell confirmation for that position whose quoted price is a
full dollar above the recomputed average price (so its price check
fails). -/
def exDriftSellView : SellConfirmView :=
  { user_id := "u", market_id := "m", outcome := "YES", percent := 100,
    shares := 1, price := (lmsr_cost 1 0 1 - lmsr_cost 0 0 1) + 1 }

/-- An unresolved market with no positions at all. -/
def urMarket : Market :=
  { question := "q", b := 1, yes_shares := 0, no_shares := 0,
    resolved := false, market_resolution := none,
    implied_odds := 1/2, volume_traded := 0 }

/-- A state holding only `urMarket` under id `"m"`. -/
def urState : State :=
  { markets := [("m", urMarket)], balances := fun _ => 100,
    bets := [], trades := [], resolutions := [] }

/-- The state after resolving `urState`'s market as YES: the market is
marked resolved and nothing else changes (no positions to pay). -/
def urStateResolved : State :=
  { urState with markets :=
      [("m", { urMarket with resolved := true, market_resolution := some "YES" })] }

end TurtleMarket

end

open TurtleMarket

/-! ## Pricing-engine lemmas -/

/-- The log-sum-exp trick is exact over ℝ:
`lmsr_cost q_yes q_no b = b * log (exp (q_yes/b) + exp (q_no/b))`. -/
theorem lmsr_cost_eq (q_yes q_no b : ℝ) :
    lmsr_cost q_yes q_no b =
      b * Real.log (Real.exp (q_yes / b) + Real.exp (q_no / b)) := by
  unfold lmsr_cost
  set x := q_yes / b
  set y := q_no / b
  set m := max x y
  have hpos : 0 < Real.exp (x - m) + Real.exp (y - m) :=
    add_pos (Real.exp_pos _) (Real.exp_pos _)
  have hexp : Real.exp x + Real.exp y
      = Real.exp m * (Real.exp (x - m) + Real.exp (y - m)) := by
    rw [mul_add, ← Real.exp_add, ← Real.exp_add]
    ring_nf
  have hlog : Real.log (Real.exp x + Real.exp y)
      = m + Real.log (Real.exp (x - m) + Real.exp (y - m)) := by
    rw [hexp, Real.log_mul (ne_of_gt (Real.exp_pos m)) (ne_of_gt hpos),
      Real.log_exp]
  simp only [hlog]

/-- Shift-by-max cancels in the price as well:
`lmsr_price = exp(x) / (exp x + exp y)`. -/
theorem lmsr_price_eq (q_yes q_no b : ℝ) :
    lmsr_price q_yes q_no b =
      Real.exp (q_yes / b) /
        (Real.exp (q_yes / b) + Real.exp (q_no / b)) := by
  unfold lmsr_price
  set x := q_yes / b
  set y := q_no / b
  set m := max x y
  have hm : Real.exp x = Real.exp m * Real.exp (x - m) := by
    rw [← Real.exp_add]; ring_nf
  have hm' : Real.exp y = Real.exp m * Real.exp (y - m) := by
    rw [← Real.exp_add]; ring_nf
  rw [hm, hm', ← mul_add, mul_div_mul_left _ _ (ne_of_gt (Real.exp_pos m))]

/-- The cost function is symmetric in its two quantity arguments. -/
theorem lmsr_cost_comm (q_yes q_no b : ℝ) :
    lmsr_cost q_yes q_no b = lmsr_cost q_no q_yes b := by
  rw [lmsr_cost_eq, lmsr_cost_eq, add_comm]

/-- Strict monotonicity of the cost in the YES quantity (for `b > 0`). -/
theorem lmsr_cost_strictMono (q_no b : ℝ) (hb : 0 < b) {q1 q2 : ℝ}
    (h : q1 < q2) : lmsr_cost q1 q_no b < lmsr_cost q2 q_no b := by
  rw [lmsr_cost_eq, lmsr_cost_eq]
  have h1 : q1 / b < q2 / b := by gcongr
  have h2 : Real.exp (q1 / b) < Real.exp (q2 / b) := Real.exp_lt_exp.2 h1
  have hpos : 0 < Real.exp (q1 / b) + Real.exp (q_no / b) :=
    add_pos (Real.exp_pos _) (Real.exp_pos _)
  exact mul_lt_mul_of_pos_left
    (Real.log_lt_log hpos (by linarith)) hb

/-- Monotone (non-strict) version, convenient below. -/
theorem lmsr_cost_mono (q_no b : ℝ) (hb : 0 < b) {q1 q2 : ℝ}
    (h : q1 ≤ q2) : lmsr_cost q1 q_no b ≤ lmsr_cost q2 q_no b := by
  rcases eq_or_lt_of_le h with rfl | hlt
  · exact le_refl _
  · exact le_of_lt (lmsr_cost_strictMono q_no b hb hlt)

/-- The cost dominates the YES quantity: `q_yes ≤ lmsr_cost q_yes q_no b`
when `b > 0` (used for bracket-expansion termination). -/
theorem le_lmsr_cost (q_yes q_no b : ℝ) (hb : 0 < b) :
    q_yes ≤ lmsr_cost q_yes q_no b := by
  rw [lmsr_cost_eq]
  have h1 : Real.exp (q_yes / b) ≤ Real.exp (q_yes / b) + Real.exp (q_no / b) :=
    le_add_of_nonneg_right (le_of_lt (Real.exp_pos _))
  have h2 : q_yes / b ≤ Real.log (Real.exp (q_yes / b) + Real.exp (q_no / b)) := by
    calc q_yes / b = Real.log (Real.exp (q_yes / b)) := (Real.log_exp _).symm
    _ ≤ _ := Real.log_le_log (Real.exp_pos _) h1
  calc q_yes = b * (q_yes / b) := by field_simp
  _ ≤ b * Real.log (Real.exp (q_yes / b) + Real.exp (q_no / b)) :=
      mul_le_mul_of_nonneg_left h2 (le_of_lt hb)

/-- The cost function is continuous in the YES quantity. -/
theorem lmsr_cost_continuous (q_no b : ℝ) :
    Continuous (fun q => lmsr_cost q q_no b) := by
  have hcont : Continuous
      (fun q : ℝ => Real.exp (q / b) + Real.exp (q_no / b)) := by
    continuity
  have hne : ∀ q : ℝ, Real.exp (q / b) + Real.exp (q_no / b) ≠ 0 :=
    fun q => ne_of_gt (add_pos (Real.exp_pos _) (Real.exp_pos _))
  have hmain : Continuous
      (fun q : ℝ => b * Real.log (Real.exp (q / b) + Real.exp (q_no / b))) :=
    continuous_const.mul (hcont.log hne)
  have heq : (fun q => lmsr_cost q q_no b)
      = fun q : ℝ => b * Real.log (Real.exp (q / b) + Real.exp (q_no / b)) := by
    funext q; exact lmsr_cost_eq q q_no b
  rw [heq]; exact hmain

theorem lmsr_price_pos (q_yes q_no b : ℝ) : 0 < lmsr_price q_yes q_no b := by
  rw [lmsr_price_eq]
  exact div_pos (Real.exp_pos _) (add_pos (Real.exp_pos _) (Real.exp_pos _))

theorem lmsr_price_lt_one (q_yes q_no b : ℝ) : lmsr_price q_yes q_no b < 1 := by
  rw [lmsr_price_eq]
  have hpos : 0 < Real.exp (q_yes / b) + Real.exp (q_no / b) :=
    add_pos (Real.exp_pos _) (Real.exp_pos _)
  rw [div_lt_one hpos]
  linarith [Real.exp_pos (q_no / b)]

/-- The YES price and the NO price (quantities swapped) sum to exactly 1. -/
theorem lmsr_price_add_swap (q_yes q_no b : ℝ) :
    lmsr_price q_yes q_no b + lmsr_price q_no q_yes b = 1 := by
  rw [lmsr_price_eq, lmsr_price_eq]
  have hpos : 0 < Real.exp (q_yes / b) + Real.exp (q_no / b) :=
    add_pos (Real.exp_pos _) (Real.exp_pos _)
  rw [add_comm (Real.exp (q_no / b))]
  field_simp

/-! ## Claim C8 -/

/-- C8: for all finite `q_yes, q_no` and `b > 0`, the YES price lies
strictly in `(0,1)`, and the YES price plus the NO price (the same
function with the quantity arguments swapped) equals 1, in particular
within `1e-9`. -/
theorem C8_price_bounds (q_yes q_no b : ℝ) (hb : 0 < b) :
    0 < lmsr_price q_yes q_no b ∧ lmsr_price q_yes q_no b < 1 ∧
      |lmsr_price q_yes q_no b + lmsr_price q_no q_yes b - 1| ≤ 1e-9 := by
  refine ⟨lmsr_price_pos q_yes q_no b, lmsr_price_lt_one q_yes q_no b, ?_⟩
  rw [lmsr_price_add_swap]
  norm_num

/-- Witness for C8 at `q_yes = 0`, `q_no = 0`, `b = 1`. -/
theorem C8_price_bounds_witness :
    0 < lmsr_price 0 0 1 ∧ lmsr_price 0 0 1 < 1 ∧
      |lmsr_price 0 0 1 + lmsr_price 0 0 1 - 1| ≤ 1e-9 :=
  C8_price_bounds 0 0 1 zero_lt_one

/-! ## Claim C9 -/

/-- C9: for every fixed `q_no` and `b > 0` the cost is strictly
increasing in `q_yes`, and symmetrically, for fixed `q_yes`, strictly
increasing in `q_no`. -/
theorem C9_cost_monotone (q_yes q_no b q1 q2 : ℝ) (hb : 0 < b) (h : q1 < q2) :
    lmsr_cost q1 q_no b < lmsr_cost q2 q_no b ∧
      lmsr_cost q_yes q1 b < lmsr_cost q_yes q2 b := by
  constructor
  · exact lmsr_cost_strictMono q_no b hb h
  · rw [lmsr_cost_comm q_yes q1 b, lmsr_cost_comm q_yes q2 b]
    exact lmsr_cost_strictMono q_yes b hb h

/-- Witness for C9 at `q_yes = 0`, `q_no = 0`, `b = 1`, `q1 = 0 < q2 = 1`. -/
theorem C9_cost_monotone_witness :
    lmsr_cost 0 0 1 < lmsr_cost 1 0 1 ∧ lmsr_cost 0 0 1 < lmsr_cost 0 1 1 :=
  C9_cost_monotone 0 0 1 0 1 zero_lt_one zero_lt_one

/-! ## Solver lemmas -/

/-- Probing the cost at `dq = 0` gives the current cost, on both sides. -/
theorem side_cost_zero (q_yes q_no b : ℝ) (side : String) :
    side_cost q_yes q_no b side 0 = lmsr_cost q_yes q_no b := by
  unfold side_cost
  split <;> simp

/-- The probed cost is monotone in `dq` (for `b > 0`). -/
theorem side_cost_mono (q_yes q_no b : ℝ) (side : String) (hb : 0 < b)
    {d1 d2 : ℝ} (h : d1 ≤ d2) :
    side_cost q_yes q_no b side d1 ≤ side_cost q_yes q_no b side d2 := by
  unfold side_cost
  split
  · exact lmsr_cost_mono q_no b hb (by linarith)
  · rw [lmsr_cost_comm q_yes (q_no + d1) b, lmsr_cost_comm q_yes (q_no + d2) b]
    exact lmsr_cost_mono q_yes b hb (by linarith)

/-- The probed cost dominates `min q_yes q_no + dq` (for `b > 0`): the
cost grows without bound along the traded side. -/
theorem side_cost_ge (q_yes q_no b : ℝ) (side : String) (hb : 0 < b)
    (dq : ℝ) : min q_yes q_no + dq ≤ side_cost q_yes q_no b side dq := by
  unfold side_cost
  split
  · have h1 : min q_yes q_no + dq ≤ q_yes + dq := by
      have := min_le_left q_yes q_no
      linarith
    exact le_trans h1 (le_lmsr_cost (q_yes + dq) q_no b hb)
  · have h1 : min q_yes q_no + dq ≤ q_no + dq := by
      have := min_le_right q_yes q_no
      linarith
    have h2 : q_no + dq ≤ lmsr_cost q_yes (q_no + dq) b := by
      rw [lmsr_cost_comm]
      exact le_lmsr_cost (q_no + dq) q_yes b hb
    linarith

/-- The probed cost is continuous in `dq`. -/
theorem side_cost_continuous (q_yes q_no b : ℝ) (side : String) :
    Continuous (side_cost q_yes q_no b side) := by
  unfold side_cost
  split
  · exact (lmsr_cost_continuous q_no b).comp (continuous_const.add continuous_id)
  · have hc : Continuous (fun q => lmsr_cost q q_yes b) :=
      lmsr_cost_continuous q_yes b
    have heq : (fun dq => lmsr_cost q_yes (q_no + dq) b)
        = fun dq => lmsr_cost (q_no + dq) q_yes b := by
      funext dq; exact lmsr_cost_comm q_yes (q_no + dq) b
    rw [heq]
    exact hc.comp (continuous_const.add continuous_id)

/-- The bracket-expansion result stays positive. -/
theorem expand_high_pos (q_yes q_no b target : ℝ) (side : String) :
    ∀ (fuel : ℕ) (high : ℝ), 0 < high →
      0 < expand_high q_yes q_no b target side fuel high := by
  intro fuel
  induction fuel with
  | zero => intro high h; simpa [expand_high] using h
  | succ n ih =>
    intro high h
    rw [expand_high]
    split
    · exact h
    · exact ih (2 * high) (by linarith)

/-- If the exit condition holds after `n` doublings, the expansion loop
with fuel `n + 1` returns a value satisfying the exit condition. -/
theorem expand_high_exits (q_yes q_no b target : ℝ) (side : String) :
    ∀ (n : ℕ) (high : ℝ),
      target ≤ side_cost q_yes q_no b side (high * 2 ^ n) →
      target ≤ side_cost q_yes q_no b side
        (expand_high q_yes q_no b target side (n + 1) high) := by
  intro n
  induction n with
  | zero =>
    intro high h
    rw [expand_high]
    split
    · assumption
    · simp only [pow_zero, mul_one] at h
      exact absurd h (by assumption)
  | succ k ih =>
    intro high h
    rw [expand_high]
    split
    · assumption
    · exact ih (2 * high) (by rw [show 2 * high * 2 ^ k = high * 2 ^ (k + 1) by ring]; exact h)

/-- Bracket invariant of the bisection loop: starting from a valid
bracket, the result is either within `tol` of the target or is the
midpoint of a (sub)bracket that is still valid. -/
theorem bisect_spec (q_yes q_no b target tol : ℝ) (side : String) :
    ∀ (n : ℕ) (low high : ℝ), low ≤ high →
      side_cost q_yes q_no b side low ≤ target →
      target ≤ side_cost q_yes q_no b side high →
      |side_cost q_yes q_no b side (bisect q_yes q_no b target tol side n low high) - target| < tol ∨
        ∃ l h, bisect q_yes q_no b target tol side n low high = (l + h) / 2 ∧
          low ≤ l ∧ l ≤ h ∧ h ≤ high ∧
          side_cost q_yes q_no b side l ≤ target ∧
          target ≤ side_cost q_yes q_no b side h := by
  intro n
  induction n with
  | zero =>
    intro low high hlh hlo hhi
    right
    exact ⟨low, high, rfl, le_refl _, hlh, le_refl _, hlo, hhi⟩
  | succ k ih =>
    intro low high hlh hlo hhi
    rw [bisect]
    split
    · left; assumption
    · split
      · rename_i hc
        have hmid : low ≤ (low + high) / 2 ∧ (low + high) / 2 ≤ high :=
          ⟨by linarith, by linarith⟩
        rcases ih low ((low + high) / 2) hmid.1 hlo (le_of_lt hc) with h | ⟨l, h', e, b1, b2, b3, c1, c2⟩
        · left; exact h
        · right; exact ⟨l, h', e, b1, b2, le_trans b3 hmid.2, c1, c2⟩
      · rename_i hnc
        push_neg at hnc
        have hmid : low ≤ (low + high) / 2 ∧ (low + high) / 2 ≤ high :=
          ⟨by linarith, by linarith⟩
        rcases ih ((low + high) / 2) high hmid.2 hnc hhi with h | ⟨l, h', e, b1, b2, b3, c1, c2⟩
        · left; exact h
        · right; exact ⟨l, h', e, le_trans hmid.1 b1, b2, b3, c1, c2⟩

/-- When every positive probe overshoots the target by at least `tol`,
every bisection step moves `high` down to the midpoint, so starting from
`low = 0` the result is `high / 2 ^ (n + 1)`. -/
theorem bisect_all_above (q_yes q_no b target tol : ℝ) (side : String)
    (htol : 0 < tol)
    (habove : ∀ x : ℝ, 0 < x → target + tol ≤ side_cost q_yes q_no b side x) :
    ∀ (n : ℕ) (high : ℝ), 0 < high →
      bisect q_yes q_no b target tol side n 0 high = high / 2 ^ (n + 1) := by
  intro n
  induction n with
  | zero =>
    intro high hh
    rw [bisect]
    ring
  | succ k ih =>
    intro high hh
    rw [bisect]
    have hmid : (0 : ℝ) + high = high := by ring
    have hmidpos : 0 < (0 + high) / 2 := by linarith
    have hab := habove ((0 + high) / 2) hmidpos
    have h1 : ¬ |side_cost q_yes q_no b side ((0 + high) / 2) - target| < tol := by
      rw [abs_of_nonneg (by linarith)]
      linarith
    have h2 : target < side_cost q_yes q_no b side ((0 + high) / 2) := by linarith
    rw [if_neg h1, if_pos h2, ih ((0 + high) / 2) hmidpos, zero_add,
      div_div, ← pow_succ']

/-! ## Claim C10 -/

/-- C10: for every `b > 0`, all finite inputs and every side, the
`while True` bracket-expansion loop of `calc_shares` exits after finitely
many doublings because the cost grows without bound in the traded side's
quantity: some `n` satisfies the exit condition `cost(high0 * 2^n) ≥
target`, and running the embedded loop with fuel `n + 1` produces a value
satisfying the exit condition.  (The subsequent bisection loop is a
`range(max_iter)` loop, bounded by construction.) -/
theorem C10_termination (delta_cash q_yes q_no b : ℝ) (side : String)
    (hb : 0 < b) :
    ∃ n : ℕ,
      lmsr_cost q_yes q_no b + delta_cash ≤
        side_cost q_yes q_no b side (max (delta_cash / b * b) 1 * 2 ^ n) ∧
      lmsr_cost q_yes q_no b + delta_cash ≤
        side_cost q_yes q_no b side
          (expand_high q_yes q_no b (lmsr_cost q_yes q_no b + delta_cash) side
            (n + 1) (max (delta_cash / b * b) 1)) := by
  set target := lmsr_cost q_yes q_no b + delta_cash with htarget
  set high0 := max (delta_cash / b * b) 1 with hhigh0
  have hh1 : (1 : ℝ) ≤ high0 := le_max_right _ _
  obtain ⟨n, hn⟩ := exists_nat_ge (target - min q_yes q_no)
  have hpow : (n : ℝ) ≤ 2 ^ n := by
    have := Nat.lt_two_pow n
    have h2 : ((n : ℕ) : ℝ) < ((2 ^ n : ℕ) : ℝ) := by exact_mod_cast this
    push_cast at h2
    linarith
  have hgrow : target ≤ min q_yes q_no + high0 * 2 ^ n := by
    have hp : (0 : ℝ) < 2 ^ n := by positivity
    have : (2 : ℝ) ^ n ≤ high0 * 2 ^ n := by nlinarith
    linarith
  have hexit : target ≤ side_cost q_yes q_no b side (high0 * 2 ^ n) :=
    le_trans hgrow (side_cost_ge q_yes q_no b side hb _)
  exact ⟨n, hexit, expand_high_exits q_yes q_no b target side n high0 hexit⟩

/-- Witness for C10 at `delta_cash = 1`, `q_yes = q_no = 0`, `b = 1`,
side `"YES"`. -/
theorem C10_termination_witness :
    ∃ n : ℕ,
      lmsr_cost 0 0 1 + 1 ≤
        side_cost 0 0 1 "YES" (max ((1 : ℝ) / 1 * 1) 1 * 2 ^ n) ∧
      lmsr_cost 0 0 1 + 1 ≤
        side_cost 0 0 1 "YES"
          (expand_high 0 0 1 (lmsr_cost 0 0 1 + 1) "YES" (n + 1)
            (max ((1 : ℝ) / 1 * 1) 1)) :=
  C10_termination 1 0 0 1 "YES" zero_lt_one

/-! ## Claim C1 -/

/-- C1: whenever the bracket expansion has reached its exit condition
(which some fuel always achieves, by `C10_termination`), the value `dq`
returned by `calc_shares` either satisfies the round-trip property
`|cost(q + dq on the traded side) - cost(q) - delta_cash| < tol ≤ tol`,
or — when the bisection does not converge within `max_iter` iterations —
is the midpoint of a bracket `[low, high]` that contains an exact root of
`cost(q + x) = cost(q) + delta_cash`. -/
theorem C1_solver_round_trip (fuel max_iter : ℕ)
    (delta_cash q_yes q_no b tol : ℝ) (side : String)
    (hb : 0 < b) (hdc : 0 < delta_cash)
    (hexit : lmsr_cost q_yes q_no b + delta_cash ≤
      side_cost q_yes q_no b side
        (expand_high q_yes q_no b (lmsr_cost q_yes q_no b + delta_cash) side
          fuel (max (delta_cash / b * b) 1))) :
    |side_cost q_yes q_no b side
        (calc_shares fuel delta_cash q_yes q_no b side tol max_iter)
      - lmsr_cost q_yes q_no b - delta_cash| ≤ tol ∨
    ∃ low high,
      calc_shares fuel delta_cash q_yes q_no b side tol max_iter
          = (low + high) / 2 ∧
        low ≤ calc_shares fuel delta_cash q_yes q_no b side tol max_iter ∧
        calc_shares fuel delta_cash q_yes q_no b side tol max_iter ≤ high ∧
        ∃ x ∈ Set.Icc low high,
          side_cost q_yes q_no b side x = lmsr_cost q_yes q_no b + delta_cash := by
  set target := lmsr_cost q_yes q_no b + delta_cash with htarget
  set high0 := max (delta_cash / b * b) 1 with hhigh0
  set hi := expand_high q_yes q_no b target side fuel high0 with hhi
  have hipos : 0 < hi :=
    expand_high_pos q_yes q_no b target side fuel high0
      (lt_of_lt_of_le zero_lt_one (le_max_right _ _))
  have hlo : side_cost q_yes q_no b side 0 ≤ target := by
    rw [side_cost_zero]
    linarith
  have hcs : calc_shares fuel delta_cash q_yes q_no b side tol max_iter
      = bisect q_yes q_no b target tol side max_iter 0 hi := rfl
  rcases bisect_spec q_yes q_no b target tol side max_iter 0 hi
      (le_of_lt hipos) hlo hexit with h | ⟨l, h', e, b1, b2, b3, c1, c2⟩
  · left
    rw [hcs, show side_cost q_yes q_no b side
        (bisect q_yes q_no b target tol side max_iter 0 hi)
        - lmsr_cost q_yes q_no b - delta_cash
      = side_cost q_yes q_no b side
        (bisect q_yes q_no b target tol side max_iter 0 hi) - target by
        rw [htarget]; ring]
    exact le_of_lt h
  · right
    refine ⟨l, h', by rw [hcs]; exact e, ?_, ?_, ?_⟩
    · rw [hcs, e]; linarith
    · rw [hcs, e]; linarith
    · have hsub : Set.Icc (side_cost q_yes q_no b side l)
          (side_cost q_yes q_no b side h') ⊆
          side_cost q_yes q_no b side '' Set.Icc l h' :=
        intermediate_value_Icc b2 ((side_cost_continuous q_yes q_no b side).continuousOn)
      have hmem : target ∈ Set.Icc (side_cost q_yes q_no b side l)
          (side_cost q_yes q_no b side h') := ⟨c1, c2⟩
      obtain ⟨x, hx, hfx⟩ := hsub hmem
      exact ⟨x, hx, hfx⟩

/-- Witness for C1 at `delta_cash = 1/2`, `q_yes = q_no = 0`, `b = 1`,
side `"YES"`, `tol = 1e-6`, `max_iter = 100`, fuel 1: the expansion exit
condition holds immediately because
`cost(0,0,1) + 1/2 = log(2 exp(1/2)) ≤ log(exp 1 + 1) = cost(1,0,1)`. -/
theorem C1_solver_round_trip_witness :
    |side_cost 0 0 1 "YES"
        (calc_shares 1 (1/2) 0 0 1 "YES" 1e-6 100)
      - lmsr_cost 0 0 1 - 1/2| ≤ 1e-6 ∨
    ∃ low high,
      calc_shares 1 (1/2) 0 0 1 "YES" 1e-6 100 = (low + high) / 2 ∧
        low ≤ calc_shares 1 (1/2) 0 0 1 "YES" 1e-6 100 ∧
        calc_shares 1 (1/2) 0 0 1 "YES" 1e-6 100 ≤ high ∧
        ∃ x ∈ Set.Icc low high,
          side_cost 0 0 1 "YES" x = lmsr_cost 0 0 1 + 1/2 := by
  have hcost0 : lmsr_cost 0 0 1 = Real.log 2 := by
    rw [lmsr_cost_eq]
    norm_num
  have hup : upper "YES" = "YES" := by decide
  have hcost1 : side_cost 0 0 1 "YES" 1 = Real.log (Real.exp 1 + 1) := by
    unfold side_cost
    rw [if_pos hup]
    norm_num [lmsr_cost_eq]
  have hkey : lmsr_cost 0 0 1 + 1/2 ≤ side_cost 0 0 1 "YES" 1 := by
    rw [hcost0, hcost1]
    have he : Real.exp 1 = Real.exp (1/2) * Real.exp (1/2) := by
      rw [← Real.exp_add]; norm_num
    have hhalf : (1 : ℝ)/2 = Real.log (Real.exp (1/2)) := (Real.log_exp _).symm
    rw [hhalf, ← Real.log_mul (by norm_num) (ne_of_gt (Real.exp_pos _))]
    apply Real.log_le_log (by positivity)
    nlinarith [sq_nonneg (Real.exp (1/2) - 1), Real.exp_pos (1/2)]
  have hmax : max ((1:ℝ)/2 / 1 * 1) 1 = 1 := by norm_num
  have hexp : expand_high 0 0 1 (lmsr_cost 0 0 1 + 1/2) "YES" 1
      (max ((1:ℝ)/2 / 1 * 1) 1) = 1 := by
    rw [hmax, expand_high, if_pos hkey]
  have hexit : lmsr_cost 0 0 1 + 1/2 ≤
      side_cost 0 0 1 "YES"
        (expand_high 0 0 1 (lmsr_cost 0 0 1 + 1/2) "YES" 1
          (max ((1:ℝ)/2 / 1 * 1) 1)) := by
    rw [hexp]; exact hkey
  exact C1_solver_round_trip 1 100 (1/2) 0 0 1 1e-6 "YES" zero_lt_one
    (by norm_num) hexit

/-! ## Claim C7 -/

/-- With `delta_cash ≤ -tol` (and `b > 0`, `tol > 0`), the initial
bracket is `[0, 1]`, the expansion exits immediately, and every bisection
probe overshoots the target by at least `tol`, so `calc_shares` returns
exactly `1 / 2 ^ (max_iter + 1)` — an ordinary positive share quantity,
not an error and not a flagged value. -/
theorem calc_shares_nonpos_eval (fuel max_iter : ℕ)
    (delta_cash q_yes q_no b tol : ℝ) (side : String)
    (hb : 0 < b) (htol : 0 < tol) (hdc : delta_cash ≤ -tol) (hfuel : 0 < fuel) :
    calc_shares fuel delta_cash q_yes q_no b side tol max_iter
      = 1 / 2 ^ (max_iter + 1) := by
  set target := lmsr_cost q_yes q_no b + delta_cash with htarget
  have hmax : max (delta_cash / b * b) 1 = 1 := by
    rw [div_mul_cancel₀ _ (ne_of_gt hb)]
    exact max_eq_right (by nlinarith)
  have hcond : target ≤ side_cost q_yes q_no b side 1 := by
    have h0 : side_cost q_yes q_no b side 0 ≤ side_cost q_yes q_no b side 1 :=
      side_cost_mono q_yes q_no b side hb zero_le_one
    rw [side_cost_zero] at h0
    have : target ≤ lmsr_cost q_yes q_no b := by rw [htarget]; nlinarith
    linarith
  have hexp : expand_high q_yes q_no b target side fuel 1 = 1 := by
    obtain ⟨k, rfl⟩ := Nat.exists_eq_succ_of_ne_zero (Nat.pos_iff_ne_zero.mp hfuel)
    rw [expand_high, if_pos hcond]
  have habove : ∀ x : ℝ, 0 < x →
      target + tol ≤ side_cost q_yes q_no b side x := by
    intro x hx
    have h0 : side_cost q_yes q_no b side 0 ≤ side_cost q_yes q_no b side x :=
      side_cost_mono q_yes q_no b side hb (le_of_lt hx)
    rw [side_cost_zero] at h0
    rw [htarget]
    linarith
  have hcs : calc_shares fuel delta_cash q_yes q_no b side tol max_iter
      = bisect q_yes q_no b target tol side max_iter 0
          (expand_high q_yes q_no b target side fuel (max (delta_cash / b * b) 1)) := rfl
  rw [hcs, hmax, hexp,
    bisect_all_above q_yes q_no b target tol side htol habove max_iter 1 zero_lt_one]

/-- C7 counterexample: `calc_shares(-1, 0, 0, 1, 'YES')` neither raises
nor returns a flagged degenerate value — it returns the ordinary positive
share quantity `2⁻¹⁰¹`, indistinguishable in kind from a genuine result
(the function has no error channel at all). -/
theorem C7_counterexample :
    calc_shares 1 (-1) 0 0 1 "YES" 1e-6 100 = 1 / 2 ^ 101 ∧
      (0 : ℝ) < calc_shares 1 (-1) 0 0 1 "YES" 1e-6 100 := by
  have h := calc_shares_nonpos_eval 1 100 (-1) 0 0 1 1e-6 "YES"
    zero_lt_one (by norm_num) (by norm_num) zero_lt_one
  refine ⟨h, ?_⟩
  rw [h]
  positivity

/-- C7 amended: for every `q_yes, q_no`, `b > 0`, `tol > 0` and every
side, `calc_shares` with `delta_cash ≤ -tol` does not fail: it returns
the ordinary positive share quantity `1 / 2 ^ (max_iter + 1)` (the
initial bracket is `[0, 1]` and every bisection step halves `high`), with
no error and no flag distinguishing it from a genuine result; callers
must reject non-positive trade sizes before calling. -/
theorem C7_amended_returns_ordinary_value (fuel max_iter : ℕ)
    (delta_cash q_yes q_no b tol : ℝ) (side : String)
    (hb : 0 < b) (htol : 0 < tol) (hdc : delta_cash ≤ -tol) (hfuel : 0 < fuel) :
    calc_shares fuel delta_cash q_yes q_no b side tol max_iter
        = 1 / 2 ^ (max_iter + 1) ∧
      0 < calc_shares fuel delta_cash q_yes q_no b side tol max_iter := by
  have h := calc_shares_nonpos_eval fuel max_iter delta_cash q_yes q_no b tol
    side hb htol hdc hfuel
  refine ⟨h, ?_⟩
  rw [h]
  positivity

/-- Witness for the amended C7 at `delta_cash = -2`, `q_yes = 3`,
`q_no = 5`, `b = 2`, `tol = 1e-6`, side `"NO"`, `max_iter = 100`. -/
theorem C7_amended_returns_ordinary_value_witness :
    calc_shares 1 (-2) 3 5 2 "NO" 1e-6 100 = 1 / 2 ^ 101 ∧
      0 < calc_shares 1 (-2) 3 5 2 "NO" 1e-6 100 :=
  C7_amended_returns_ordinary_value 1 100 (-2) 3 5 2 1e-6 "NO"
    two_pos (by norm_num) (by norm_num) zero_lt_one

/-! ## Ledger lemmas -/

/-- Pointwise effect of `update_balance`. -/
theorem update_balance_apply (S : State) (uid : String) (delta : ℝ)
    (x : String) :
    (update_balance S uid delta).balances x
      = if x = uid then S.balances x + delta else S.balances x := rfl

/-- `add_bet` never touches balances. -/
theorem add_bet_balances (S : State) (u mid oc : String) (ds dc : ℝ) :
    (add_bet S u mid oc ds dc).balances = S.balances := by
  unfold add_bet
  dsimp only
  split <;> rfl

/-- `set_market` never touches balances. -/
theorem set_market_balances (S : State) (id : String) (m : Market) :
    (set_market S id m).balances = S.balances := rfl

/-- `log_trade` never touches balances. -/
theorem log_trade_balances (S : State) (u mid oc : String)
    (sh am pr ba : ℝ) :
    (log_trade S u mid oc sh am pr ba).balances = S.balances := rfl

/-- The buy mutation block changes balances exactly like the two
`update_balance` calls it starts with. -/
theorem buy_commit_balances (v : BuyConfirmView) (S : State)
    (m : Market) :
    (v.commit S m).balances
      = (update_balance (update_balance S v.user_id (-v.amount))
          POOL_ID v.amount).balances := by
  unfold BuyConfirmView.commit
  dsimp only
  rw [log_trade_balances, set_market_balances, add_bet_balances]

/-- The sell mutation block changes balances exactly like the two
`update_balance` calls it starts with. -/
theorem sell_commit_balances (v : SellConfirmView) (S : State)
    (m : Market) (a : ℝ) :
    (v.commit S m a).balances
      = (update_balance (update_balance S v.user_id a)
          POOL_ID (-a)).balances := by
  unfold SellConfirmView.commit
  dsimp only
  rw [log_trade_balances, set_market_balances, add_bet_balances]

/-- A committed buy confirmation came through the mutation block of some
looked-up market. -/
theorem buy_confirm_committed (fuel : ℕ) (v : BuyConfirmView)
    (S : State)
    (h : (BuyConfirmView.confirm fuel v S).2 = ConfirmResult.committed) :
    ∃ m, lookupMarket S.markets v.market_id = some m ∧
      (BuyConfirmView.confirm fuel v S).1 = v.commit S m := by
  unfold BuyConfirmView.confirm at h ⊢
  rcases hm : lookupMarket S.markets v.market_id with _ | m
  · rw [hm] at h
    simp at h
  · rw [hm] at h
    dsimp only at h ⊢
    split at h
    · simp at h
    · rename_i hc
      rw [if_neg hc]
      exact ⟨m, rfl, rfl⟩

/-- A committed sell confirmation came through the mutation block of some
looked-up market, with the recomputed proceeds. -/
theorem sell_confirm_committed (v : SellConfirmView) (S : State)
    (h : (SellConfirmView.confirm v S).2 = ConfirmResult.committed) :
    ∃ m, lookupMarket S.markets v.market_id = some m ∧
      (SellConfirmView.confirm v S).1 = v.commit S m (sell_new_amount m v) := by
  unfold SellConfirmView.confirm at h ⊢
  rcases hm : lookupMarket S.markets v.market_id with _ | m
  · rw [hm] at h
    simp at h
  · rw [hm] at h
    dsimp only at h ⊢
    split at h
    · simp at h
    · rename_i hc
      rw [if_neg hc]
      exact ⟨m, rfl, rfl⟩

/-! ## Concrete confirmation evaluations -/

/-- The stored quote of `exBuyView` matches the recomputed average price
exactly, so the confirmation commits. -/
theorem buy_confirm_ex : BuyConfirmView.confirm 1 exBuyView exState
    = (exBuyView.commit exState exMarket, ConfirmResult.committed) := by
  unfold BuyConfirmView.confirm
  have hl : lookupMarket exState.markets exBuyView.market_id = some exMarket := by
    simp [lookupMarket, exState, exBuyView]
  rw [hl]
  dsimp only
  have hprice : exBuyView.amount /
      calc_shares 1 exBuyView.amount exMarket.yes_shares exMarket.no_shares
        exMarket.b exBuyView.outcome 1e-6 100 = exBuyView.price := rfl
  have hcond : ¬ (1e-6 : ℝ) < |exBuyView.amount /
      calc_shares 1 exBuyView.amount exMarket.yes_shares exMarket.no_shares
        exMarket.b exBuyView.outcome 1e-6 100 - exBuyView.price| := by
    rw [hprice, sub_self, abs_zero]
    norm_num
  rw [if_neg hcond]

theorem buy_ex_committed :
    (BuyConfirmView.confirm 1 exBuyView exState).2 = ConfirmResult.committed := by
  rw [buy_confirm_ex]

/-- The recomputed sell proceeds on `exSellState` simplify to the cost
difference of removing the single YES share. -/
theorem sell_ex_amount : sell_new_amount exMarketU exSellView
    = lmsr_cost 1 0 1 - lmsr_cost 0 0 1 := by
  unfold sell_new_amount
  norm_num [exMarketU, exSellView]

theorem sell_drift_amount : sell_new_amount exMarketU exDriftSellView
    = lmsr_cost 1 0 1 - lmsr_cost 0 0 1 := by
  unfold sell_new_amount
  norm_num [exMarketU, exDriftSellView]

/-- The stored quote of `exSellView` is `9e-7` below the recomputed
average price: inside the absolute `1e-6` tolerance, so the confirmation
commits. -/
theorem sell_confirm_ex : SellConfirmView.confirm exSellView exSellState
    = (exSellView.commit exSellState exMarketU (sell_new_amount exMarketU exSellView),
        ConfirmResult.committed) := by
  unfold SellConfirmView.confirm
  have hl : lookupMarket exSellState.markets exSellView.market_id = some exMarketU := by
    simp [lookupMarket, exSellState, exSellView]
  rw [hl]
  dsimp only
  have hcond : ¬ (1e-6 : ℝ) <
      |sell_new_amount exMarketU exSellView / exSellView.shares - exSellView.price| := by
    rw [sell_ex_amount, show exSellView.shares = 1 from rfl,
      show exSellView.price = (lmsr_cost 1 0 1 - lmsr_cost 0 0 1) - 9e-7 from rfl,
      div_one]
    rw [show lmsr_cost 1 0 1 - lmsr_cost 0 0 1 -
        (lmsr_cost 1 0 1 - lmsr_cost 0 0 1 - 9e-7) = 9e-7 by ring]
    rw [abs_of_pos (by norm_num)]
    norm_num
  rw [if_neg hcond]

theorem sell_ex_committed :
    (SellConfirmView.confirm exSellView exSellState).2 = ConfirmResult.committed := by
  rw [sell_confirm_ex]

/-! ## Numeric bounds for the example market -/

theorem lmsr_cost_101 : lmsr_cost 1 0 1 = Real.log (Real.exp 1 + 1) := by
  rw [lmsr_cost_eq]
  norm_num [Real.exp_zero]

theorem lmsr_cost_001 : lmsr_cost 0 0 1 = Real.log 2 := by
  rw [lmsr_cost_eq]
  norm_num [Real.exp_zero]

/-- The proceeds of liquidating the single YES share of the example
market lie strictly between `1/2` and `9/10`. -/
theorem sell_L_bounds :
    1/2 < lmsr_cost 1 0 1 - lmsr_cost 0 0 1 ∧
      lmsr_cost 1 0 1 - lmsr_cost 0 0 1 < 9/10 := by
  rw [lmsr_cost_101, lmsr_cost_001]
  have he1 : (0:ℝ) < Real.exp 1 + 1 := by positivity
  have hdiv : Real.log (Real.exp 1 + 1) - Real.log 2
      = Real.log ((Real.exp 1 + 1) / 2) :=
    (Real.log_div (ne_of_gt he1) (by norm_num)).symm
  rw [hdiv]
  constructor
  · rw [Real.lt_log_iff_exp_lt (by positivity)]
    have ha : Real.exp (1/2) * Real.exp (1/2) = Real.exp 1 := by
      rw [← Real.exp_add]; norm_num
    have hgt : (2.7182818283 : ℝ) < Real.exp 1 := Real.exp_one_gt_d9
    have hlt : Real.exp 1 < 2.7182818286 := Real.exp_one_lt_d9
    have hpos : (0:ℝ) < Real.exp (1/2) := Real.exp_pos _
    nlinarith [sq_nonneg (Real.exp (1/2) - 8/5)]
  · rw [Real.log_lt_iff_lt_exp (by positivity)]
    have h1 : (9:ℝ)/10 + 1 ≤ Real.exp (9/10) := Real.add_one_le_exp _
    have h2 : Real.exp 1 < 2.7182818286 := Real.exp_one_lt_d9
    linarith

/-! ## Claim C2 -/

/-- C2 counterexample: on `exSellState`, the stored quote of `exSellView`
drifts from the recomputed average price by a *relative* amount above
`1e-6` (the drift is `9e-7` on a price below `0.9`), yet the confirmation
commits and mutates the seller's balance: the code's tolerance is
absolute, not relative. -/
theorem C2_counterexample :
    1e-6 < |sell_new_amount exMarketU exSellView / exSellView.shares
        - exSellView.price| / |exSellView.price| ∧
    (SellConfirmView.confirm exSellView exSellState).2 = ConfirmResult.committed ∧
    (SellConfirmView.confirm exSellView exSellState).1.balances "u"
      ≠ exSellState.balances "u" := by
  have hL := sell_L_bounds
  have hprice : exSellView.price = (lmsr_cost 1 0 1 - lmsr_cost 0 0 1) - 9e-7 := rfl
  refine ⟨?_, ?_, ?_⟩
  · rw [sell_ex_amount, show exSellView.shares = 1 from rfl, div_one, hprice,
      show lmsr_cost 1 0 1 - lmsr_cost 0 0 1 -
        (lmsr_cost 1 0 1 - lmsr_cost 0 0 1 - 9e-7) = (9e-7 : ℝ) by ring,
      abs_of_pos (by norm_num), abs_of_pos (by nlinarith [hL.1]),
      lt_div_iff₀ (by nlinarith [hL.1])]
    nlinarith [hL.2]
  · rw [sell_confirm_ex]
  · rw [sell_confirm_ex]
    dsimp only
    rw [sell_commit_balances]
    simp only [update_balance_apply, POOL_ID,
      show exSellView.user_id = "u" from rfl,
      show exSellState.balances "u" = 100 from rfl]
    rw [if_neg (by decide : ¬("u":String) = "AMM")]
    simp only [if_true]
    intro hcontra
    have h0 : sell_new_amount exMarketU exSellView = 0 := by linarith
    rw [sell_ex_amount] at h0
    nlinarith [hL.1]

/-- C2 amended: at confirmation the engine recomputes the average price
from the market's current quantities with the same request inputs and
compares it to the quoted price within a `1e-6` *absolute* tolerance; for
every confirmation whose absolute drift exceeds `1e-6` the trade fails as
`priceMoved` with the state returned unchanged (no balance, position,
market or log mutation). -/
theorem C2_price_check (fuel : ℕ) (S T : State)
    (v : BuyConfirmView) (w : SellConfirmView) (m mw : Market)
    (hm : lookupMarket S.markets v.market_id = some m)
    (hdrift : 1e-6 < |v.amount /
        calc_shares fuel v.amount m.yes_shares m.no_shares m.b v.outcome 1e-6 100
      - v.price|)
    (hmw : lookupMarket T.markets w.market_id = some mw)
    (hdriftw : 1e-6 < |sell_new_amount mw w / w.shares - w.price|) :
    BuyConfirmView.confirm fuel v S = (S, ConfirmResult.priceMoved) ∧
      SellConfirmView.confirm w T = (T, ConfirmResult.priceMoved) := by
  constructor
  · unfold BuyConfirmView.confirm
    rw [hm]
    dsimp only
    rw [if_pos hdrift]
  · unfold SellConfirmView.confirm
    rw [hmw]
    dsimp only
    rw [if_pos hdriftw]

/-- Witness for the amended C2: drifted quotes (off by a full dollar) on
the example states are rejected with no state change. -/
theorem C2_price_check_witness :
    BuyConfirmView.confirm 1 exDriftView exState
        = (exState, ConfirmResult.priceMoved) ∧
      SellConfirmView.confirm exDriftSellView exSellState
        = (exSellState, ConfirmResult.priceMoved) := by
  have hm : lookupMarket exState.markets exDriftView.market_id = some exMarket := by
    simp [lookupMarket, exState, exDriftView]
  have hd : (1e-6:ℝ) < |exDriftView.amount /
      calc_shares 1 exDriftView.amount exMarket.yes_shares exMarket.no_shares
        exMarket.b exDriftView.outcome 1e-6 100 - exDriftView.price| := by
    rw [show exDriftView.price = exDriftView.amount /
        calc_shares 1 exDriftView.amount exMarket.yes_shares exMarket.no_shares
          exMarket.b exDriftView.outcome 1e-6 100 + 1 from rfl,
      sub_add_cancel_left, abs_neg, abs_one]
    norm_num
  have hmw : lookupMarket exSellState.markets exDriftSellView.market_id
      = some exMarketU := by
    simp [lookupMarket, exSellState, exDriftSellView]
  have hdw : (1e-6:ℝ) < |sell_new_amount exMarketU exDriftSellView /
      exDriftSellView.shares - exDriftSellView.price| := by
    rw [sell_drift_amount, show exDriftSellView.shares = 1 from rfl, div_one,
      show exDriftSellView.price
        = (lmsr_cost 1 0 1 - lmsr_cost 0 0 1) + 1 from rfl,
      sub_add_cancel_left, abs_neg, abs_one]
    norm_num
  exact C2_price_check 1 exState exSellState exDriftView exDriftSellView
    exMarket exMarketU hm hd hmw hdw

/-! ## Claim C4 -/

/-- C4: for every committed trade confirmation (buy or sell), the change
to the trading user's cash balance is exactly the negative of the change
to the AMM pool account's balance, and no other account's balance
changes, so the sum of all balances is invariant. -/
theorem C4_balance_conservation (fuel : ℕ) (S T : State)
    (v : BuyConfirmView) (w : SellConfirmView)
    (hbuy : (BuyConfirmView.confirm fuel v S).2 = ConfirmResult.committed)
    (hsell : (SellConfirmView.confirm w T).2 = ConfirmResult.committed) :
    ((BuyConfirmView.confirm fuel v S).1.balances v.user_id
        - S.balances v.user_id
      = -((BuyConfirmView.confirm fuel v S).1.balances POOL_ID
        - S.balances POOL_ID)) ∧
    ((SellConfirmView.confirm w T).1.balances w.user_id
        - T.balances w.user_id
      = -((SellConfirmView.confirm w T).1.balances POOL_ID
        - T.balances POOL_ID)) ∧
    (∀ u, u ≠ v.user_id → u ≠ POOL_ID →
      (BuyConfirmView.confirm fuel v S).1.balances u = S.balances u) ∧
    (∀ u, u ≠ w.user_id → u ≠ POOL_ID →
      (SellConfirmView.confirm w T).1.balances u = T.balances u) := by
  obtain ⟨m, hm, he⟩ := buy_confirm_committed fuel v S hbuy
  obtain ⟨mw, hmw, hew⟩ := sell_confirm_committed w T hsell
  rw [he, hew, buy_commit_balances, sell_commit_balances]
  simp only [update_balance_apply]
  refine ⟨?_, ?_, ?_, ?_⟩
  · by_cases hu : v.user_id = POOL_ID
    · simp only [hu, eq_self_iff_true, if_true]
      ring
    · simp only [if_neg hu, if_neg (Ne.symm hu), eq_self_iff_true, if_true]
      ring
  · by_cases hu : w.user_id = POOL_ID
    · simp only [hu, eq_self_iff_true, if_true]
      ring
    · simp only [if_neg hu, if_neg (Ne.symm hu), eq_self_iff_true, if_true]
      ring
  · intro u h1 h2
    rw [if_neg h2, if_neg h1]
  · intro u h1 h2
    rw [if_neg h2, if_neg h1]

/-- Witness for C4: a committed buy on `exState` and a committed sell on
`exSellState`. -/
theorem C4_balance_conservation_witness :
    ((BuyConfirmView.confirm 1 exBuyView exState).1.balances exBuyView.user_id
        - exState.balances exBuyView.user_id
      = -((BuyConfirmView.confirm 1 exBuyView exState).1.balances POOL_ID
        - exState.balances POOL_ID)) ∧
    ((SellConfirmView.confirm exSellView exSellState).1.balances exSellView.user_id
        - exSellState.balances exSellView.user_id
      = -((SellConfirmView.confirm exSellView exSellState).1.balances POOL_ID
        - exSellState.balances POOL_ID)) ∧
    (∀ u, u ≠ exBuyView.user_id → u ≠ POOL_ID →
      (BuyConfirmView.confirm 1 exBuyView exState).1.balances u
        = exState.balances u) ∧
    (∀ u, u ≠ exSellView.user_id → u ≠ POOL_ID →
      (SellConfirmView.confirm exSellView exSellState).1.balances u
        = exSellState.balances u) :=
  C4_balance_conservation 1 exState exSellState exBuyView exSellView
    buy_ex_committed sell_ex_committed

/-! ## Claim C5 -/

/-- C5 counterexample: `exMarket` is already resolved, yet the stored buy
confirmation `exBuyView` (whose quoted price still matches, since
resolution does not change the outstanding quantities) commits and
mutates the buyer's balance from 100 to 99 — the confirmation handlers
never re-check the `resolved` flag. -/
theorem C5_counterexample :
    exMarket.resolved = true ∧
    lookupMarket exState.markets exBuyView.market_id = some exMarket ∧
    (BuyConfirmView.confirm 1 exBuyView exState).2 = ConfirmResult.committed ∧
    (BuyConfirmView.confirm 1 exBuyView exState).1.balances "u" = 99 ∧
    exState.balances "u" = 100 := by
  refine ⟨rfl, by simp [lookupMarket, exState, exBuyView], ?_, ?_, rfl⟩
  · rw [buy_confirm_ex]
  · rw [buy_confirm_ex]
    dsimp only
    rw [buy_commit_balances]
    simp only [update_balance_apply, POOL_ID,
      show exBuyView.user_id = "u" from rfl,
      show exBuyView.amount = 1 from rfl,
      show exState.balances "u" = 100 from rfl]
    rw [if_neg (by decide : ¬("u":String) = "AMM")]
    simp only [if_true]
    norm_num

/-- C5 amended: the `/buy` and `/sell` *commands* reject a market whose
resolved flag is true unconditionally at quote time (`marketResolved`,
state unchanged); the confirmation step, however, performs no resolved
re-check, so a confirmation whose price check passes can commit against a
market resolved between quote and confirm (see the counterexample). -/
theorem C5_quote_rejects_resolved (fuel : ℕ) (S : State)
    (user_id id side : String) (amount : ℝ) (percent : ℤ) (m : Market)
    (hm : lookupMarket S.markets id = some m) (hres : m.resolved = true) :
    buy fuel S user_id id side amount = (S, QuoteResult.marketResolved) ∧
      sell S user_id id side percent = (S, QuoteResult.marketResolved) := by
  constructor
  · unfold buy
    rw [hm]
    dsimp only
    rw [if_pos hres]
  · unfold sell
    rw [hm]
    dsimp only
    rw [if_pos hres]

/-- Witness for the amended C5 on the resolved example market. -/
theorem C5_quote_rejects_resolved_witness :
    buy 1 exState "u" "m" "Y" 5 = (exState, QuoteResult.marketResolved) ∧
      sell exState "u" "m" "Y" 50 = (exState, QuoteResult.marketResolved) :=
  C5_quote_rejects_resolved 1 exState "u" "m" "Y" 5 50 exMarket
    (by simp [lookupMarket, exState]) rfl

/-! ## Resolution lemmas -/

/-- Pointwise balance effect of one payout-loop iteration. -/
theorem resolve_row_balances (mid c : String) (acc : State × ℝ × ℝ)
    (r : Bet) (u : String) :
    ((resolve_row mid c acc r).1).balances u
      = if u = r.user_id
        then acc.1.balances u +
          (if c = "HALF" then 0.5 * r.shares
           else if r.outcome = c then r.shares else 0)
        else acc.1.balances u := rfl

/-- One payout-loop iteration never touches the market table. -/
theorem resolve_row_markets (mid c : String) (acc : State × ℝ × ℝ)
    (r : Bet) : ((resolve_row mid c acc r).1).markets = acc.1.markets := rfl

/-- The whole payout loop credits each user with exactly the sum of the
per-position payouts of their rows. -/
theorem resolve_fold_balances (mid c : String) (rows : List Bet) :
    ∀ (acc : State × ℝ × ℝ) (u : String),
      ((rows.foldl (resolve_row mid c) acc).1).balances u
        = acc.1.balances u +
          ((rows.filter (fun r => r.user_id == u)).map
            (fun r => if c = "HALF" then 0.5 * r.shares
              else if r.outcome = c then r.shares else 0)).sum := by
  induction rows with
  | nil =>
    intro acc u
    simp
  | cons r rest ih =>
    intro acc u
    rw [List.foldl_cons, ih, resolve_row_balances]
    by_cases hu : u = r.user_id
    · have hb : (r.user_id == u) = true := by simp [hu]
      rw [if_pos hu, List.filter_cons, if_pos hb, List.map_cons, List.sum_cons]
      ring
    · have hb : (r.user_id == u) = false := by
        simp only [beq_eq_false_iff_ne, ne_eq]
        exact fun hcontra => hu hcontra.symm
      rw [if_neg hu, List.filter_cons, if_neg (by simp [hb])]

/-- The whole payout loop never touches the market table. -/
theorem resolve_fold_markets (mid c : String) (rows : List Bet) :
    ∀ acc : State × ℝ × ℝ,
      ((rows.foldl (resolve_row mid c) acc).1).markets = acc.1.markets := by
  induction rows with
  | nil => intro acc; rfl
  | cons r rest ih =>
    intro acc
    rw [List.foldl_cons, ih, resolve_row_markets]

/-! ## Claim C3 -/

/-- C3: resolving an existing, unresolved market as `YES`, `NO` or `HALF`
succeeds, and every user's balance increases by exactly the sum, over
their positions in that market, of the per-position payout: winners get
`shares`, losers get `0`, and under `HALF` every position gets
`0.5 * shares` regardless of outcome side. -/
theorem C3_resolution_exactness (S : State) (market_id correct : String)
    (m : Market)
    (hm : lookupMarket S.markets market_id = some m)
    (hres : m.resolved = false)
    (hc : correct = "YES" ∨ correct = "NO" ∨ correct = "HALF") :
    ∃ out, resolve_market S market_id correct = Except.ok out ∧
      ∀ u, out.1.balances u = S.balances u +
        (((S.bets.filter (fun r => r.market_id == market_id)).filter
            (fun r => r.user_id == u)).map
          (fun r => if correct = "HALF" then 0.5 * r.shares
            else if r.outcome = correct then r.shares else 0)).sum := by
  unfold resolve_market
  rw [hm]
  dsimp only
  rw [if_neg (by simp [hres])]
  refine ⟨_, rfl, ?_⟩
  intro u
  rw [resolve_fold_balances]
  rfl

/-- Witness for C3: resolving the unresolved example market as YES. -/
theorem C3_resolution_exactness_witness :
    ∃ out, resolve_market urState "m" "YES" = Except.ok out ∧
      ∀ u, out.1.balances u = urState.balances u +
        (((urState.bets.filter (fun r => r.market_id == "m")).filter
            (fun r => r.user_id == u)).map
          (fun r => if "YES" = "HALF" then 0.5 * r.shares
            else if r.outcome = "YES" then r.shares else 0)).sum :=
  C3_resolution_exactness urState "m" "YES" urMarket
    (by simp [lookupMarket, urState]) rfl (Or.inl rfl)

/-! ## Claim C6 -/

/-- Updating the stored entry for a present key makes the lookup return
the new value. -/
theorem lookup_set (l : List (String × Market)) (id : String) (m m0 : Market)
    (h : lookupMarket l id = some m0) :
    lookupMarket (l.map (fun p => if p.1 = id then (p.1, m) else p)) id
      = some m := by
  induction l with
  | nil => simp [lookupMarket] at h
  | cons p rest ih =>
    unfold lookupMarket at h ⊢
    rw [List.map_cons]
    by_cases hp : p.1 = id
    · rw [if_pos hp, List.find?_cons_of_pos _ (by simp [hp])]
      simp
    · rw [if_neg hp, List.find?_cons_of_neg _ (by simp [hp])]
      rw [List.find?_cons_of_neg _ (by simp [hp])] at h
      exact ih h

/-- A successful `resolve_market` found an unresolved market and marked
it resolved; nothing later in the transaction touches the market table. -/
theorem resolve_market_ok_inv (S : State) (id c : String)
    (out : State × String × ℝ × ℝ × ℝ)
    (h : resolve_market S id c = Except.ok out) :
    ∃ m, lookupMarket S.markets id = some m ∧ m.resolved = false ∧
      out.1.markets = (set_market S id
        { m with resolved := true, market_resolution := some c }).markets := by
  unfold resolve_market at h
  rcases hm : lookupMarket S.markets id with _ | m
  · rw [hm] at h
    simp at h
  · rw [hm] at h
    dsimp only at h
    by_cases hr : m.resolved = true
    · rw [if_pos hr] at h
      simp at h
    · rw [if_neg hr] at h
      refine ⟨m, rfl, by simpa using hr, ?_⟩
      rw [Except.ok.injEq] at h
      rw [← h]
      dsimp only
      rw [resolve_fold_markets]

/-- C6: resolving a missing market reports `notFound`; resolving an
already-resolved market reports `alreadyResolved`; in both cases the
`/resolve` command returns the state unchanged (the `ValueError` is
raised before any write).  Moreover any successful resolution marks the
market resolved, so an immediately repeated resolve call fails with
`alreadyResolved` — positions are never paid twice. -/
theorem C6_resolve_rejection (S : State) (id oc : String) (m : Market) :
    (lookupMarket S.markets id = none →
      resolve_command S id oc = (S, some ResolveErr.notFound)) ∧
    (lookupMarket S.markets id = some m → m.resolved = true →
      resolve_command S id oc = (S, some ResolveErr.alreadyResolved)) ∧
    (∀ out c, resolve_market S id c = Except.ok out →
      ∀ oc2, resolve_command out.1 id oc2
        = (out.1, some ResolveErr.alreadyResolved)) := by
  refine ⟨?_, ?_, ?_⟩
  · intro h
    unfold resolve_command resolve_market
    rw [h]
  · intro h hr
    unfold resolve_command resolve_market
    rw [h]
    dsimp only
    rw [if_pos hr]
  · intro out c hok oc2
    obtain ⟨m0, hm0, hr0, hmk⟩ := resolve_market_ok_inv S id c out hok
    have hl : lookupMarket out.1.markets id
        = some { m0 with resolved := true, market_resolution := some c } := by
      rw [hmk]
      exact lookup_set S.markets id _ m0 hm0
    unfold resolve_command resolve_market
    rw [hl]
    dsimp only
    rw [if_pos rfl]

/-- Resolving the unresolved, position-free example market succeeds and
just marks it resolved. -/
theorem resolve_urState : resolve_market urState "m" "YES"
    = Except.ok (urStateResolved, "q", 1/2, 0, 0) := by
  unfold resolve_market
  rw [show lookupMarket urState.markets "m" = some urMarket from
    by simp [lookupMarket, urState]]
  dsimp only
  rw [if_neg (by simp [urMarket])]
  simp [urState, urMarket, set_market, urStateResolved]

/-- Witness for C6: a missing market, the resolved example market, and a
resolve-then-resolve-again sequence on the example market. -/
theorem C6_resolve_rejection_witness :
    resolve_command exState "zzz" "Y" = (exState, some ResolveErr.notFound) ∧
    resolve_command exState "m" "Y" = (exState, some ResolveErr.alreadyResolved) ∧
    resolve_command urStateResolved "m" "N"
      = (urStateResolved, some ResolveErr.alreadyResolved) := by
  refine ⟨?_, ?_, ?_⟩
  · exact (C6_resolve_rejection exState "zzz" "Y" exMarket).1
      (by simp [lookupMarket, exState])
  · exact (C6_resolve_rejection exState "m" "Y" exMarket).2.1
      (by simp [lookupMarket, exState]) rfl
  · exact (C6_resolve_rejection urState "m" "Y" urMarket).2.2
      (urStateResolved, "q", 1/2, 0, 0) "YES" resolve_urState "N"
